import Mathlib

set_option maxRecDepth 8192

/-!
Shallow embedding of `src/adc.cpp` (ME405 A/D converter driver) and proofs
of the specification claims about it.

Modelling conventions:
* The two 8-bit hardware registers `ADCSRA` and `ADMUX` are natural numbers;
  8-bit truncation is explicit where the C code relies on it.
* The hardware's conversion results are an oracle `f : Nat → Nat`: the k-th
  conversion performed by the driver reads `f k` from the 16-bit result
  register `ADC` (so the value delivered is `f k % 65536`; on real hardware
  it is a 10-bit value).  The field `nreads` counts conversions performed,
  giving the trace of hardware reads.
* `uint16_t` arithmetic carries an explicit `% 65536`; `uint8_t` values are
  kept below 256 by the operations themselves or by hypotheses.
* The C division in `return result/temp_samples;` has undefined behaviour
  when the divisor is zero, so it is embedded as a guarded division
  returning `Option Nat` (`none` on divisor zero).
-/

namespace ME405

/-- AVR bit positions used by adc.cpp (avr/io.h): ADCSRA bits. -/
def ADEN : Nat := 7

/-- Start-conversion / conversion-busy bit of ADCSRA (mask 0b01000000). -/
def ADSC : Nat := 6

/-- Prescaler select bit 0 of ADCSRA. -/
def ADPS0 : Nat := 0

/-- Prescaler select bit 1 of ADCSRA. -/
def ADPS1 : Nat := 1

/-- Prescaler select bit 2 of ADCSRA. -/
def ADPS2 : Nat := 2

/-- Reference-select bit 0 of ADMUX. -/
def REFS0 : Nat := 6

/-- Reference-select bit 1 of ADMUX. -/
def REFS1 : Nat := 7

/-- The shared hardware state the driver mutates: the two 8-bit control
registers, plus `nreads`, the number of conversions performed so far
(the index into the conversion oracle — the trace of hardware reads). -/
structure AdcState where
  ADCSRA : Nat
  ADMUX : Nat
  nreads : Nat
deriving Repr, DecidableEq

/-- C bitwise complement truncated to the 8-bit register width: the effect
of `reg &= ~mask` on a `uint8_t` register for a mask below 256. -/
def compl8 (x : Nat) : Nat := 255 ^^^ x

/-- Embeds the constructor `adc::adc` (src/adc.cpp lines 42-61): enable the
converter (`ADCSRA |= 1<<ADEN`), set the clock prescaler to a division
factor of 32 (`ADPS0 := 1`, `ADPS1 := 0`, `ADPS2 := 1`), and select AVCC
with external capacitor (`REFS0 := 1`, `REFS1 := 0`). -/
def adc_ctor (s : AdcState) : AdcState :=
  let a0 := s.ADCSRA ||| (1 <<< ADEN)
  let a1 := a0 ||| (1 <<< ADPS0)
  let a2 := a1 &&& compl8 (1 <<< ADPS1)
  let a3 := a2 ||| (1 <<< ADPS2)
  let m0 := s.ADMUX ||| (1 <<< REFS0)
  let m1 := m0 &&& compl8 (1 <<< REFS1)
  { s with ADCSRA := a3, ADMUX := m1 }

/-- Embeds `adc::read_once` (src/adc.cpp lines 74-94): mask the channel to
its low 3 bits, clear the low 3 bits of ADMUX and write the channel, set
ADSC to start the conversion, busy-wait until the hardware clears ADSC
(the loop of line 87; its exit means ADSC reads 0 afterwards), then read
the 16-bit result register, supplied by the oracle `f` at index `nreads`. -/
def read_once (f : Nat → Nat) (s : AdcState) (ch : Nat) : AdcState × Nat :=
  let ch2 := ch &&& 7
  let admux := (s.ADMUX &&& 248) ||| ch2
  let adcsra := (s.ADCSRA ||| (1 <<< ADSC)) &&& compl8 (1 <<< ADSC)
  ({ ADCSRA := adcsra, ADMUX := admux, nreads := s.nreads + 1 },
   f s.nreads % 65536)

/-- Embeds the busy-wait loop `while(ADCSRA & 0b01000000);` of line 87.
`busy k` is the ADSC bit the hardware presents at the k-th poll of the
loop; `fuel` bounds the unrolling and `none` means the loop has not
exited within `fuel` polls. -/
def busyWait (busy : Nat → Bool) : Nat → Nat → Option Nat
  | 0, _ => none
  | fuel + 1, k => if busy k then busyWait busy fuel (k + 1) else some k

/-- `read_once` with the busy-wait explicit: `none` when the spin loop of
line 87 does not exit within `fuel` polls, otherwise the result of
`read_once`. -/
def read_once_spin (f : Nat → Nat) (busy : Nat → Bool) (s : AdcState)
    (ch : Nat) (fuel : Nat) : Option (AdcState × Nat) :=
  match busyWait busy fuel 0 with
  | none => none
  | some _ => some (read_once f s ch)

/-- Embeds the accumulation loop of src/adc.cpp lines 121-124:
`for(int i = 0; i < samples; samples--) result += read_once(channel);`.
`i` stays 0, so the loop body runs once per unit of `samples`;
`result` is a `uint16_t`, hence the `% 65536`. -/
def oversampleLoop (f : Nat → Nat) (ch : Nat) :
    Nat → AdcState → Nat → AdcState × Nat
  | 0, s, result => (s, result)
  | n + 1, s, result =>
      let p := read_once f s ch
      oversampleLoop f ch n p.1 ((result + p.2) % 65536)

/-- Embeds `adc::read_oversampled` (src/adc.cpp lines 106-128): clamp
`samples` to 60 when it is at least 64, save the post-clamp count in
`temp_samples`, run the accumulation loop, and return
`result / temp_samples`.  The C division is undefined for divisor zero,
so the embedding returns `none` exactly when `temp_samples = 0`. -/
def read_oversampled (f : Nat → Nat) (s : AdcState)
    (channel samples : Nat) : AdcState × Option Nat :=
  let samples2 := if 64 ≤ samples then 60 else samples
  let temp_samples := samples2
  let p := oversampleLoop f channel samples2 s 0
  (p.1, if temp_samples = 0 then none else some (p.2 / temp_samples))

/-- Sum of the 16-bit values delivered by the conversions numbered
`start, start+1, ..., start+n-1` (each conversion delivers
`f k % 65536`). -/
def sumReads (f : Nat → Nat) (start : Nat) : Nat → Nat
  | 0 => 0
  | n + 1 => f start % 65536 + sumReads f (start + 1) n

/-- Plain sum of the oracle readings `f start, ..., f (start+n-1)`:
the spec's `sum_of_readings`. -/
def sumReadings (f : Nat → Nat) (start : Nat) : Nat → Nat
  | 0 => 0
  | n + 1 => f start + sumReadings f (start + 1) n

/-- Output items written to the diagnostic sink (emstream). -/
inductive OutItem where
  | str : String → OutItem
  | num : Nat → OutItem
  | endl : OutItem
deriving Repr, DecidableEq

/-- Embeds `operator << (emstream&, adc&)` (src/adc.cpp lines 141-156):
emit the raw ADCSRA and ADMUX values, then one `read_once` result for each
channel 0 through 7, each on its own labelled line, threading the hardware
state left to right through the eight conversions. -/
def print_adc (f : Nat → Nat) (s : AdcState) : List OutItem × AdcState :=
  let p0 := read_once f s 0
  let p1 := read_once f p0.1 1
  let p2 := read_once f p1.1 2
  let p3 := read_once f p2.1 3
  let p4 := read_once f p3.1 4
  let p5 := read_once f p4.1 5
  let p6 := read_once f p5.1 6
  let p7 := read_once f p6.1 7
  ([.str "ADCSRA: ", .num s.ADCSRA, .endl,
    .str "ADMUX: ", .num s.ADMUX, .endl,
    .str "ADC0 = ", .num p0.2, .endl,
    .str "ADC1 = ", .num p1.2, .endl,
    .str "ADC2 = ", .num p2.2, .endl,
    .str "ADC3 = ", .num p3.2, .endl,
    .str "ADC4 = ", .num p4.2, .endl,
    .str "ADC5 = ", .num p5.2, .endl,
    .str "ADC6 = ", .num p6.2, .endl,
    .str "ADC7 = ", .num p7.2, .endl], p7.1)

/-- The deterministic mock reading sequence of the spec: readings
100, 200, 300 for a three-sample average. -/
def mockReads (k : Nat) : Nat :=
  if k = 0 then 100 else if k = 1 then 200 else if k = 2 then 300 else 0

/-! Helper lemmas about the accumulation loop and the reading sums. -/

theorem read_once_nreads (f : Nat → Nat) (s : AdcState) (ch : Nat) :
    (read_once f s ch).1.nreads = s.nreads + 1 := rfl

theorem oversampleLoop_snd (f : Nat → Nat) (ch n : Nat) :
    ∀ (s : AdcState) (r : Nat), r < 65536 →
    (oversampleLoop f ch n s r).2 = (r + sumReads f s.nreads n) % 65536 := by
  induction n with
  | zero =>
      intro s r hr
      simp [oversampleLoop, sumReads, Nat.mod_eq_of_lt hr]
  | succ n ih =>
      intro s r hr
      simp only [oversampleLoop]
      rw [ih _ _ (Nat.mod_lt _ (by norm_num))]
      simp only [read_once, sumReads]
      omega

theorem oversampleLoop_nreads (f : Nat → Nat) (ch n : Nat) :
    ∀ (s : AdcState) (r : Nat),
    (oversampleLoop f ch n s r).1.nreads = s.nreads + n := by
  induction n with
  | zero => intro s r; simp [oversampleLoop]
  | succ n ih =>
      intro s r
      simp only [oversampleLoop]
      rw [ih]
      simp only [read_once]
      omega

theorem sumReads_eq_sumReadings (f : Nat → Nat) (hf : ∀ k, f k ≤ 1023) :
    ∀ (n start : Nat), sumReads f start n = sumReadings f start n := by
  intro n
  induction n with
  | zero => intro start; rfl
  | succ n ih =>
      intro start
      have h : f start % 65536 = f start :=
        Nat.mod_eq_of_lt (lt_of_le_of_lt (hf start) (by norm_num))
      simp [sumReads, sumReadings, h, ih]

theorem sumReadings_le (f : Nat → Nat) (hf : ∀ k, f k ≤ 1023) :
    ∀ (n start : Nat), sumReadings f start n ≤ n * 1023 := by
  intro n
  induction n with
  | zero => intro start; simp [sumReadings]
  | succ n ih =>
      intro start
      simp only [sumReadings]
      have h1 := hf start
      have h2 := ih (start + 1)
      omega

theorem mockReads_le (k : Nat) : mockReads k ≤ 1023 := by
  simp only [mockReads]
  split
  · omega
  · split
    · omega
    · split
      · omega
      · omega

/-- C1: for every channel, every sample count with 1 ≤ samples ≤ 60, and
every sequence of readings the single-read primitive can deliver (10-bit
values, at most 1023), read_oversampled returns
floor(sum_of_readings / samples), dividing by the original pre-decrement
sample count. -/
theorem claim_C1_average (f : Nat → Nat) (s : AdcState) (ch samples : Nat)
    (h1 : 1 ≤ samples) (h2 : samples ≤ 60) (hf : ∀ k, f k ≤ 1023) :
    (read_oversampled f s ch samples).2 =
      some (sumReadings f s.nreads samples / samples) := by
  simp only [read_oversampled]
  rw [if_neg (by omega : ¬ 64 ≤ samples)]
  rw [if_neg (by omega : ¬ samples = 0)]
  rw [oversampleLoop_snd f ch samples s 0 (by norm_num)]
  rw [sumReads_eq_sumReadings f hf]
  have hle := sumReadings_le f hf samples s.nreads
  have hlt : sumReadings f s.nreads samples < 65536 := by omega
  rw [Nat.zero_add, Nat.mod_eq_of_lt hlt]

/-- C1 witness: with mocked readings 100, 200, 300 and samples = 3 the
returned average is 200. -/
theorem claim_C1_witness :
    (read_oversampled mockReads ⟨0, 0, 0⟩ 2 3).2 = some 200 := by
  rw [claim_C1_average mockReads ⟨0, 0, 0⟩ 2 3 (by decide) (by decide)
    mockReads_le]
  rfl

/-- C3: for every channel and every sample count samples ≥ 64,
read_oversampled behaves identically (same return value and same sequence
of hardware reads, i.e. the same result state) to read_oversampled with
samples = 60. -/
theorem claim_C3_clamp (f : Nat → Nat) (s : AdcState) (ch samples : Nat)
    (h : 64 ≤ samples) :
    read_oversampled f s ch samples = read_oversampled f s ch 60 := by
  simp only [read_oversampled]
  rw [if_pos h, if_neg (by omega : ¬ (64 : Nat) ≤ 60)]

/-- C3 witness: at samples = 100 the call coincides with samples = 60. -/
theorem claim_C3_witness :
    read_oversampled (fun _ => 0) ⟨0, 0, 0⟩ 3 100 =
      read_oversampled (fun _ => 0) ⟨0, 0, 0⟩ 3 60 :=
  claim_C3_clamp (fun _ => 0) ⟨0, 0, 0⟩ 3 100 (by decide)

/-- C4: evaluation of the code at channel 2, samples = 0.  The loop body
never runs, `temp_samples` is 0, and the final division `result /
temp_samples` is reached with divisor zero: the guarded division takes its
error branch (`none`), refuting the claim that this branch is unreachable
and a defined value is returned. -/
theorem claim_C4_div_by_zero (f : Nat → Nat) (s : AdcState) :
    (read_oversampled f s 2 0).2 = none := rfl

/-- C5: for samples ≥ 1, read_oversampled performs exactly the post-clamp
number of read_once calls (the trace counter advances by exactly that
much), accumulates into a 16-bit unsigned accumulator, and returns the
accumulator divided by the saved pre-decrement sample count. -/
theorem claim_C5_loop (f : Nat → Nat) (s : AdcState) (ch samples : Nat)
    (h1 : 1 ≤ samples) :
    (read_oversampled f s ch samples).1.nreads =
      s.nreads + (if 64 ≤ samples then 60 else samples) ∧
    (read_oversampled f s ch samples).2 =
      some (sumReads f s.nreads (if 64 ≤ samples then 60 else samples)
        % 65536 / (if 64 ≤ samples then 60 else samples)) := by
  have hn : ¬ (if 64 ≤ samples then 60 else samples) = 0 := by
    split <;> omega
  constructor
  · simp only [read_oversampled]
    rw [oversampleLoop_nreads]
  · simp only [read_oversampled]
    rw [if_neg hn, oversampleLoop_snd f ch _ s 0 (by norm_num), Nat.zero_add]

/-- C5 witness: two samples of the identity oracle give two hardware reads
and floor((0 + 1) / 2) = 0. -/
theorem claim_C5_witness :
    (read_oversampled (fun k => k) ⟨0, 0, 0⟩ 1 2).1.nreads = 2 ∧
    (read_oversampled (fun k => k) ⟨0, 0, 0⟩ 1 2).2 = some 0 := by
  have h := claim_C5_loop (fun k => k) ⟨0, 0, 0⟩ 1 2 (by decide)
  constructor
  · rw [h.1]
    rfl
  · rw [h.2]
    rfl

theorem read_oversampled_val (f : Nat → Nat) (s : AdcState)
    (ch samples : Nat) (h1 : 1 ≤ samples) (hf : ∀ k, f k ≤ 1023) :
    (read_oversampled f s ch samples).2 =
      some (sumReadings f s.nreads (if 64 ≤ samples then 60 else samples) /
        (if 64 ≤ samples then 60 else samples)) := by
  have hn : ¬ (if 64 ≤ samples then 60 else samples) = 0 := by
    split <;> omega
  have hb : (if 64 ≤ samples then 60 else samples) ≤ 63 := by
    split <;> omega
  have hle := sumReadings_le f hf (if 64 ≤ samples then 60 else samples)
    s.nreads
  simp only [read_oversampled]
  rw [if_neg hn, oversampleLoop_snd f ch _ s 0 (by norm_num), Nat.zero_add,
    sumReads_eq_sumReadings f hf, Nat.mod_eq_of_lt (by omega)]

/-- C7: for samples ≥ 1 and readings that are 10-bit values (at most
1023), every partial sum of the accumulation stays below 65536 (the
16-bit accumulator never overflows), and the returned floor-average is at
most 1023. -/
theorem claim_C7_no_overflow (f : Nat → Nat) (s : AdcState)
    (ch samples : Nat) (h1 : 1 ≤ samples) (hf : ∀ k, f k ≤ 1023) :
    (∀ m, m ≤ (if 64 ≤ samples then 60 else samples) →
      sumReadings f s.nreads m < 65536) ∧
    (read_oversampled f s ch samples).2 =
      some (sumReadings f s.nreads (if 64 ≤ samples then 60 else samples) /
        (if 64 ≤ samples then 60 else samples)) ∧
    sumReadings f s.nreads (if 64 ≤ samples then 60 else samples) /
      (if 64 ≤ samples then 60 else samples) ≤ 1023 := by
  have hb : (if 64 ≤ samples then 60 else samples) ≤ 63 := by
    split <;> omega
  have h1n : 0 < (if 64 ≤ samples then 60 else samples) := by
    split <;> omega
  have hle := sumReadings_le f hf (if 64 ≤ samples then 60 else samples)
    s.nreads
  refine ⟨?_, read_oversampled_val f s ch samples h1 hf, ?_⟩
  · intro m hm
    have := sumReadings_le f hf m s.nreads
    omega
  · calc sumReadings f s.nreads (if 64 ≤ samples then 60 else samples) /
        (if 64 ≤ samples then 60 else samples)
        ≤ ((if 64 ≤ samples then 60 else samples) * 1023) /
          (if 64 ≤ samples then 60 else samples) :=
          Nat.div_le_div_right hle
      _ = 1023 := Nat.mul_div_cancel_left 1023 h1n

/-- C7 witness: sixty maximal readings (1023 each) clamp-averaged over 70
requested samples give exactly 1023 with the full sum below 65536. -/
theorem claim_C7_witness :
    (read_oversampled (fun _ => 1023) ⟨0, 0, 0⟩ 0 70).2 = some 1023 ∧
    sumReadings (fun _ => 1023) 0 60 < 65536 := by
  have h := claim_C7_no_overflow (fun _ => 1023) ⟨0, 0, 0⟩ 0 70 (by decide)
    (fun _ => Nat.le_refl 1023)
  refine ⟨?_, ?_⟩
  · rw [h.2.1]
    rfl
  · exact h.1 60 (by decide)

/-- C10: for 61 ≤ samples ≤ 63 the clamp does not fire, the code performs
exactly samples reads and divides by samples, and with 10-bit readings
the full accumulated sum is at most 63 * 1023 = 64449, inside the 16-bit
accumulator range. -/
theorem claim_C10_mid_range (f : Nat → Nat) (s : AdcState)
    (ch samples : Nat) (h1 : 61 ≤ samples) (h2 : samples ≤ 63)
    (hf : ∀ k, f k ≤ 1023) :
    (if 64 ≤ samples then 60 else samples) = samples ∧
    (read_oversampled f s ch samples).1.nreads = s.nreads + samples ∧
    (read_oversampled f s ch samples).2 =
      some (sumReadings f s.nreads samples / samples) ∧
    sumReadings f s.nreads samples ≤ 64449 := by
  have hite : (if 64 ≤ samples then 60 else samples) = samples := by
    rw [if_neg (by omega)]
  refine ⟨hite, ?_, ?_, ?_⟩
  · simp only [read_oversampled]
    rw [oversampleLoop_nreads, hite]
  · have hv := read_oversampled_val f s ch samples (by omega) hf
    rw [hv, hite]
  · have := sumReadings_le f hf samples s.nreads
    omega

/-- C10 witness: 62 samples of a constant 1000 reading perform 62 reads
and average to exactly 1000. -/
theorem claim_C10_witness :
    (read_oversampled (fun _ => 1000) ⟨0, 0, 0⟩ 4 62).1.nreads = 62 ∧
    (read_oversampled (fun _ => 1000) ⟨0, 0, 0⟩ 4 62).2 = some 1000 := by
  have h := claim_C10_mid_range (fun _ => 1000) ⟨0, 0, 0⟩ 4 62 (by decide)
    (by decide) (fun _ => by norm_num)
  refine ⟨?_, ?_⟩
  · rw [h.2.1]
  · rw [h.2.2.1]
    rfl

/-! Bit-level helper facts, checked over the 8-bit register range. -/

theorem land7_eq_mod (x : Nat) : x &&& 7 = x % 8 := by
  have h := Nat.and_pow_two_sub_one_eq_mod x 3
  norm_num at h
  exact h

theorem land248_eq : ∀ a < 256, a &&& 248 = 8 * (a / 8) := by decide

theorem lor_low3 : ∀ b < 32, ∀ c < 8, (8 * b ||| c) = 8 * b + c := by decide

/-- C2: read_once writes exactly ch mod 8 into the low-3-bit
channel-select field of ADMUX (its value mod 8) and leaves the other five
bits of the 8-bit register (its value div 8) unchanged. -/
theorem claim_C2_admux (f : Nat → Nat) (s : AdcState) (ch : Nat)
    (hm : s.ADMUX < 256) :
    (read_once f s ch).1.ADMUX % 8 = ch % 8 ∧
    (read_once f s ch).1.ADMUX / 8 = s.ADMUX / 8 ∧
    (read_once f s ch).1.ADMUX < 256 := by
  have h7 : ch &&& 7 = ch % 8 := land7_eq_mod ch
  have h248 : s.ADMUX &&& 248 = 8 * (s.ADMUX / 8) := land248_eq s.ADMUX hm
  have hb : s.ADMUX / 8 < 32 := by omega
  have hc : ch % 8 < 8 := Nat.mod_lt _ (by norm_num)
  have hor : (8 * (s.ADMUX / 8) ||| ch % 8) = 8 * (s.ADMUX / 8) + ch % 8 :=
    lor_low3 _ hb _ hc
  simp only [read_once]
  rw [h7, h248, hor]
  refine ⟨?_, ?_, ?_⟩ <;> omega

/-- C2 witness: channel 11 against a register holding 173 selects channel
11 mod 8 = 3 and keeps the upper five bits of 173. -/
theorem claim_C2_witness :
    (read_once (fun _ => 0) ⟨0, 173, 0⟩ 11).1.ADMUX % 8 = 11 % 8 ∧
    (read_once (fun _ => 0) ⟨0, 173, 0⟩ 11).1.ADMUX / 8 = 173 / 8 ∧
    (read_once (fun _ => 0) ⟨0, 173, 0⟩ 11).1.ADMUX < 256 :=
  claim_C2_admux (fun _ => 0) ⟨0, 173, 0⟩ 11 (by decide)

theorem ctorA_bits : ∀ a < 256,
    (((((a ||| (1 <<< 7)) ||| (1 <<< 0)) &&& compl8 (1 <<< 1)) |||
        (1 <<< 2)) &&& (1 <<< 7) = 1 <<< 7) ∧
    (((((a ||| (1 <<< 7)) ||| (1 <<< 0)) &&& compl8 (1 <<< 1)) |||
        (1 <<< 2)) &&& (1 <<< 0) = 1 <<< 0) ∧
    (((((a ||| (1 <<< 7)) ||| (1 <<< 0)) &&& compl8 (1 <<< 1)) |||
        (1 <<< 2)) &&& (1 <<< 1) = 0) ∧
    (((((a ||| (1 <<< 7)) ||| (1 <<< 0)) &&& compl8 (1 <<< 1)) |||
        (1 <<< 2)) &&& (1 <<< 2) = 1 <<< 2) ∧
    (((((a ||| (1 <<< 7)) ||| (1 <<< 0)) &&& compl8 (1 <<< 1)) |||
        (1 <<< 2)) &&& 120 = a &&& 120) ∧
    ((((a ||| (1 <<< 7)) ||| (1 <<< 0)) &&& compl8 (1 <<< 1)) |||
        (1 <<< 2)) < 256 := by decide

theorem ctorM_bits : ∀ m < 256,
    ((m ||| (1 <<< 6)) &&& compl8 (1 <<< 7)) &&& (1 <<< 6) = 1 <<< 6 ∧
    ((m ||| (1 <<< 6)) &&& compl8 (1 <<< 7)) &&& (1 <<< 7) = 0 ∧
    ((m ||| (1 <<< 6)) &&& compl8 (1 <<< 7)) &&& 63 = m &&& 63 ∧
    ((m ||| (1 <<< 6)) &&& compl8 (1 <<< 7)) < 256 := by decide

/-- C6: construction sets the enable bit ADEN, sets the prescaler field to
bit0 = 1, bit1 = 0, bit2 = 1 (division factor 32), sets the reference
field to REFS0 = 1, REFS1 = 0, and changes no other bits of either 8-bit
register (ADCSRA bits 3-6, mask 120, and ADMUX bits 0-5, mask 63, keep
their pre-construction values); the conversion trace is untouched. -/
theorem claim_C6_ctor (s : AdcState) (ha : s.ADCSRA < 256)
    (hm : s.ADMUX < 256) :
    (adc_ctor s).ADCSRA &&& (1 <<< ADEN) = 1 <<< ADEN ∧
    (adc_ctor s).ADCSRA &&& (1 <<< ADPS0) = 1 <<< ADPS0 ∧
    (adc_ctor s).ADCSRA &&& (1 <<< ADPS1) = 0 ∧
    (adc_ctor s).ADCSRA &&& (1 <<< ADPS2) = 1 <<< ADPS2 ∧
    (adc_ctor s).ADMUX &&& (1 <<< REFS0) = 1 <<< REFS0 ∧
    (adc_ctor s).ADMUX &&& (1 <<< REFS1) = 0 ∧
    (adc_ctor s).ADCSRA &&& 120 = s.ADCSRA &&& 120 ∧
    (adc_ctor s).ADMUX &&& 63 = s.ADMUX &&& 63 ∧
    (adc_ctor s).ADCSRA < 256 ∧
    (adc_ctor s).ADMUX < 256 ∧
    (adc_ctor s).nreads = s.nreads := by
  have hA := ctorA_bits s.ADCSRA ha
  have hM := ctorM_bits s.ADMUX hm
  exact ⟨hA.1, hA.2.1, hA.2.2.1, hA.2.2.2.1, hM.1, hM.2.1, hA.2.2.2.2.1,
    hM.2.2.1, hA.2.2.2.2.2, hM.2.2.2, rfl⟩

/-- C6 witness: from the baseline ADCSRA = 24, ADMUX = 42 the constructor
sets exactly the targeted bits and preserves the rest. -/
theorem claim_C6_witness :
    (adc_ctor ⟨24, 42, 5⟩).ADCSRA &&& (1 <<< ADEN) = 1 <<< ADEN ∧
    (adc_ctor ⟨24, 42, 5⟩).ADCSRA &&& (1 <<< ADPS0) = 1 <<< ADPS0 ∧
    (adc_ctor ⟨24, 42, 5⟩).ADCSRA &&& (1 <<< ADPS1) = 0 ∧
    (adc_ctor ⟨24, 42, 5⟩).ADCSRA &&& (1 <<< ADPS2) = 1 <<< ADPS2 ∧
    (adc_ctor ⟨24, 42, 5⟩).ADMUX &&& (1 <<< REFS0) = 1 <<< REFS0 ∧
    (adc_ctor ⟨24, 42, 5⟩).ADMUX &&& (1 <<< REFS1) = 0 ∧
    (adc_ctor ⟨24, 42, 5⟩).ADCSRA &&& 120 = 24 &&& 120 ∧
    (adc_ctor ⟨24, 42, 5⟩).ADMUX &&& 63 = 42 &&& 63 ∧
    (adc_ctor ⟨24, 42, 5⟩).ADCSRA < 256 ∧
    (adc_ctor ⟨24, 42, 5⟩).ADMUX < 256 ∧
    (adc_ctor ⟨24, 42, 5⟩).nreads = 5 :=
  claim_C6_ctor ⟨24, 42, 5⟩ (by decide) (by decide)

theorem busyWait_exits (busy : Nat → Bool) :
    ∀ (fuel k : Nat), (∃ j, j < fuel ∧ busy (k + j) = false) →
    ∃ m, busyWait busy fuel k = some m := by
  intro fuel
  induction fuel with
  | zero =>
      intro k h
      obtain ⟨j, hj, _⟩ := h
      omega
  | succ fuel ih =>
      intro k h
      obtain ⟨j, hj, hb⟩ := h
      simp only [busyWait]
      by_cases hk : busy k
      · rw [if_pos hk]
        have hj0 : j ≠ 0 := by
          intro h0
          rw [h0, Nat.add_zero] at hb
          rw [hb] at hk
          simp at hk
        refine ih (k + 1) ⟨j - 1, by omega, ?_⟩
        have he : k + 1 + (j - 1) = k + j := by omega
        rw [he]
        exact hb
      · rw [if_neg hk]
        exact ⟨k, rfl⟩

/-- C8: read_once terminates under the precondition that the hardware
eventually clears the conversion busy bit: if the bit reads clear at the
n-th poll of the spin loop, the spin-explicit variant with fuel n+1 exits
and returns exactly the read_once result. -/
theorem claim_C8_terminates (f : Nat → Nat) (busy : Nat → Bool)
    (s : AdcState) (ch n : Nat) (h : busy n = false) :
    read_once_spin f busy s ch (n + 1) = some (read_once f s ch) := by
  obtain ⟨m, hm⟩ := busyWait_exits busy (n + 1) 0
    ⟨n, by omega, by simpa using h⟩
  simp only [read_once_spin]
  rw [hm]

/-- C8 witness: a peripheral that clears the busy bit at the third poll
lets the spin loop exit with fuel 3. -/
theorem claim_C8_witness :
    read_once_spin (fun _ => 7) (fun k => decide (k < 2)) ⟨0, 0, 0⟩ 3 3 =
      some (read_once (fun _ => 7) ⟨0, 0, 0⟩ 3) :=
  claim_C8_terminates (fun _ => 7) (fun k => decide (k < 2)) ⟨0, 0, 0⟩ 3 2
    (by decide)

/-- C9: the diagnostic dump writes the raw ADCSRA value, the raw ADMUX
value, then exactly one read_once result for each channel 0 through 7 in
ascending order, each on its own labelled line, performing exactly eight
conversions; with a simulated peripheral whose k-th conversion reads k
and a fresh trace, channel label k is paired with value k. -/
theorem claim_C9_dump (f : Nat → Nat) (s : AdcState) :
    (print_adc f s).1 =
      [.str "ADCSRA: ", .num s.ADCSRA, .endl,
       .str "ADMUX: ", .num s.ADMUX, .endl,
       .str "ADC0 = ", .num (f s.nreads % 65536), .endl,
       .str "ADC1 = ", .num (f (s.nreads + 1) % 65536), .endl,
       .str "ADC2 = ", .num (f (s.nreads + 2) % 65536), .endl,
       .str "ADC3 = ", .num (f (s.nreads + 3) % 65536), .endl,
       .str "ADC4 = ", .num (f (s.nreads + 4) % 65536), .endl,
       .str "ADC5 = ", .num (f (s.nreads + 5) % 65536), .endl,
       .str "ADC6 = ", .num (f (s.nreads + 6) % 65536), .endl,
       .str "ADC7 = ", .num (f (s.nreads + 7) % 65536), .endl] ∧
    (print_adc f s).2.nreads = s.nreads + 8 ∧
    (print_adc (fun k => k) { ADCSRA := 2, ADMUX := 3, nreads := 0 }).1 =
      [.str "ADCSRA: ", .num 2, .endl,
       .str "ADMUX: ", .num 3, .endl,
       .str "ADC0 = ", .num 0, .endl,
       .str "ADC1 = ", .num 1, .endl,
       .str "ADC2 = ", .num 2, .endl,
       .str "ADC3 = ", .num 3, .endl,
       .str "ADC4 = ", .num 4, .endl,
       .str "ADC5 = ", .num 5, .endl,
       .str "ADC6 = ", .num 6, .endl,
       .str "ADC7 = ", .num 7, .endl] := by
  refine ⟨rfl, rfl, rfl⟩

end ME405
